import Mathlib

/-!
Verification of the IMAP storage backend (mailboxes as directories, messages
as content-addressed files).  The definitions below are a shallow embedding of
the backend source: Go strings are `List Char`, Go `int64` is `Int` with
explicit range checks, Go `uint32` conversions are `% 2^32`, and fallible Go
functions return `Except`/`Option`.  The repository contains two generations
of the backend; where they diverge both are embedded (`nameToDescriptor` /
`getMatches` from the newer generation, `parseMessageInfo` / `matchesRoot`
from the older one).  Content-hash algorithms (MD5/SHA1) and the mail
well-formedness check (`net/mail.ReadMessage`) are external library calls and
enter the model as function parameters.
-/

namespace Imap

/-- Go strings, modelled as lists of characters. -/
abbrev Str := List Char

/-- Decimal digit test, as used by the `\d` regex character class. -/
def isDigitChar (c : Char) : Bool :=
  48 ≤ c.toNat && c.toNat ≤ 57

/-- ASCII space test used by `strings.TrimSpace` (ASCII fragment). -/
def isSpaceChar (c : Char) : Bool :=
  c == ' ' || c == '\t' || c == '\n' || c == '\r'

/-- Lowercase hexadecimal digit (the alphabet of the content checksums). -/
def isLowerHexChar (c : Char) : Bool :=
  (48 ≤ c.toNat && c.toNat ≤ 57) || (97 ≤ c.toNat && c.toNat ≤ 102)

/-- The character for a single decimal digit. -/
def digitChar (d : Nat) : Char :=
  match d with
  | 0 => '0' | 1 => '1' | 2 => '2' | 3 => '3' | 4 => '4'
  | 5 => '5' | 6 => '6' | 7 => '7' | 8 => '8' | _ => '9'

/-- Fuel-indexed decimal rendering (structural recursion; the fuel always
suffices because each step divides by ten). -/
def natDecimalAux : Nat → Nat → Str
  | 0, _ => []
  | fuel + 1, n =>
    if n < 10 then [digitChar n]
    else natDecimalAux fuel (n / 10) ++ [digitChar (n % 10)]

/-- Decimal rendering of a natural number, the model of `fmt.Sprintf("%d")`
for non-negative values. -/
def natDecimal (n : Nat) : Str :=
  natDecimalAux (n + 1) n

/-- Decimal rendering of an integer, the model of `fmt.Sprintf("%d")` for
Go's `int64`. -/
def intDecimal (i : Int) : Str :=
  if i < 0 then '-' :: natDecimal i.natAbs else natDecimal i.natAbs

/-- Numeric value of a digit string (most significant first). -/
def digitsVal (ds : Str) : Nat :=
  ds.foldl (fun a c => 10 * a + (c.toNat - 48)) 0

/-- The sign-and-digits part of Go `strconv.ParseInt(s, 10, _)`: optional
sign followed by at least one decimal digit. -/
def goParseIntRaw (cs : Str) : Option Int :=
  match cs with
  | [] => none
  | c :: rest =>
    let neg := c == '-'
    let ds := if c == '-' || c == '+' then rest else cs
    if ds = [] then none
    else if ¬ ds.all isDigitChar then none
    else if neg then some (-(digitsVal ds : Int)) else some (digitsVal ds : Int)

/-- Model of Go `strconv.ParseInt(s, 10, bits)`: the parsed value when it
fits the signed range of the given bit size, a range error otherwise. -/
def goParseInt (bits : Nat) (cs : Str) : Option Int :=
  (goParseIntRaw cs).bind (fun v =>
    if -((2 : Int) ^ (bits - 1)) ≤ v ∧ v ≤ (2 : Int) ^ (bits - 1) - 1 then some v
    else none)

/-- IMAP message flags (`\Seen`, `\Answered`, `\Deleted`, `\Draft`,
`\Flagged`). -/
inductive Flag where
  | seen
  | answered
  | deleted
  | draft
  | flagged
deriving DecidableEq, Repr

/-- The fixed fallback host tag baked into synthesized names
(`imapHost = "imap.rclone.org"`). -/
def imapHost : Str := "imap.rclone.org".toList

/-- The ordered flag-letter suffix appended to a synthesized name: one letter
per flag present, in the fixed order S, A, T, D, F. -/
def flagLetters (flags : List Flag) : Str :=
  (if flags.contains Flag.seen then ['S'] else [])
    ++ (if flags.contains Flag.answered then ['A'] else [])
    ++ (if flags.contains Flag.deleted then ['T'] else [])
    ++ (if flags.contains Flag.draft then ['D'] else [])
    ++ (if flags.contains Flag.flagged then ['F'] else [])

/-- The canonical (maildir-style) name body
`<unixSeconds>.R<checksum>.<host>,S=<size>-2,` shared by `newDescriptor` and
`MaildirName` (both use the same `fmt.Sprintf` format string). -/
def maildirNameCore (date : Int) (checksum : Str) (size : Int) : Str :=
  intDecimal date ++ ('.' :: 'R' :: checksum) ++ ('.' :: imapHost)
    ++ (',' :: 'S' :: '=' :: intDecimal size) ++ ['-', '2', ',']

/-- Message descriptor: the data model of a mail message as a file
(`descriptor` in the newer generation, `messageInfo` in the older one).
Dates are UTC unix seconds. -/
structure descriptor where
  parent : Str
  name : Str
  date : Int
  md5sum : Str
  size : Int
  flags : List Flag
deriving DecidableEq, Repr

/-- Source `newDescriptor`: builds a descriptor, synthesizing the canonical name
(with flag letters) when no explicit name is supplied. -/
def newDescriptor (parent name : Str) (date : Int) (checksum : Str)
    (size : Int) (flags : List Flag) : descriptor :=
  { parent := parent
    name := if name = [] then maildirNameCore date checksum size ++ flagLetters flags else name
    date := date
    md5sum := checksum
    size := size
    flags := flags }

/-- Source `descriptor.MaildirName(flags bool)`: the canonical name, with the flag
letters appended when requested. -/
def MaildirName (i : descriptor) (withFlags : Bool) : Str :=
  if withFlags then maildirNameCore i.date i.md5sum i.size ++ flagLetters i.flags
  else maildirNameCore i.date i.md5sum i.size

/-- Source `descriptor.Equal`: three-field equality on date, checksum and size;
flags (and names) are intentionally ignored. -/
def dEqual (i o : descriptor) : Bool :=
  i.date == o.date && i.md5sum == o.md5sum && i.size == o.size

/-- One attempt of the message-name pattern
`(\d+)\.R([^\.]+)\.([^,]+),S\=(\d+)-2,(.*)` anchored at the start of `s`,
returning the five capture groups.  Each quantified piece is followed by a
literal its own class excludes, so the greedy run is forced: `\d+` is the
maximal digit run (the following `.` is not a digit), `[^.]+` stops at the
first dot, `[^,]+` at the first comma, and the final `.*` takes everything up
to a newline. -/
def matchAt (s : Str) : Option (Str × Str × Str × Str × Str) :=
  let g1 := s.takeWhile isDigitChar
  let r1 := s.dropWhile isDigitChar
  if g1 = [] then none
  else
    match r1 with
    | a1 :: a2 :: r2 =>
      if a1 = '.' ∧ a2 = 'R' then
        let g2 := r2.takeWhile (· != '.')
        let r3 := r2.dropWhile (· != '.')
        if g2 = [] then none
        else
          match r3 with
          | b1 :: r4 =>
            if b1 = '.' then
              let g3 := r4.takeWhile (· != ',')
              let r5 := r4.dropWhile (· != ',')
              if g3 = [] then none
              else
                match r5 with
                | d1 :: d2 :: d3 :: r6 =>
                  if d1 = ',' ∧ d2 = 'S' ∧ d3 = '=' then
                    let g4 := r6.takeWhile isDigitChar
                    let r7 := r6.dropWhile isDigitChar
                    if g4 = [] then none
                    else
                      match r7 with
                      | e1 :: e2 :: e3 :: r8 =>
                        if e1 = '-' ∧ e2 = '2' ∧ e3 = ',' then
                          some (g1, g2, g3, g4, r8.takeWhile (· != '\n'))
                        else none
                      | _ => none
                  else none
                | _ => none
            else none
          | _ => none
      else none
    | _ => none

/-- Source `messageNameRegEx.FindStringSubmatch`: the unanchored search returns the
match at the leftmost feasible start position. -/
def findMatch (s : Str) : Option (Str × Str × Str × Str × Str) :=
  match s with
  | [] => none
  | _ :: rest =>
    match matchAt s with
    | some g => some g
    | none => findMatch rest

/-- Leading and trailing `/` removal (`strings.Trim(s, "/")`). -/
def trimSlash (s : Str) : Str :=
  (s.dropWhile (· == '/')).rdropWhile (· == '/')

/-- Model of Go `path.Split`: everything up to and including the final slash,
and the slash-free remainder. -/
def goPathSplit (s : Str) : Str × Str :=
  let file := (s.reverse.takeWhile (· != '/')).reverse
  (s.take (s.length - file.length), file)

/-- Model of Go `path.Base`: the last element of the path after trailing
slashes are removed; `"."` for the empty path, `"/"` for all-slash paths. -/
def pathBase (s : Str) : Str :=
  if s = [] then ['.']
  else
    let t := s.rdropWhile (· == '/')
    if t = [] then ['/']
    else (t.reverse.takeWhile (· != '/')).reverse

/-- The shared field extraction of `nameToDescriptor` (newer generation) and
`parseMessageInfo` (older generation): run the name pattern, then parse the
date with 64-bit `ParseInt`, the size with `ParseInt` at the given bit size,
and collect the flag letters from the trailing group. -/
def parseCore (sizeBits : Nat) (s : Str) : Option (Int × Str × Int × List Flag) :=
  match findMatch s with
  | none => none
  | some (g1, g2, _g3, g4, g5) =>
    match goParseInt 64 g1 with
    | none => none
    | some d =>
      match goParseInt sizeBits g4 with
      | none => none
      | some sz =>
        let flags : List Flag :=
          (if g5.contains 'S' then [Flag.seen] else [])
            ++ (if g5.contains 'A' then [Flag.answered] else [])
            ++ (if g5.contains 'T' then [Flag.deleted] else [])
            ++ (if g5.contains 'D' then [Flag.draft] else [])
            ++ (if g5.contains 'F' then [Flag.flagged] else [])
        some (d, g2, sz, flags)

/-- Errors surfaced by the backend; `invalidFileName`, `invalidMessage` and
`readingMessage` are the three package-level error values. -/
inductive IErr where
  | invalidFileName
  | invalidMessage
  | readingMessage
deriving DecidableEq, Repr

deriving instance DecidableEq for Except

/-- Source `nameToDescriptor(parent, name)` (newer generation): parse
`path.Base(name)` against the canonical grammar; the size is parsed with
`strconv.ParseInt(_, 10, 32)`.  Any deviation is `errorInvalidFileName`. -/
def nameToDescriptor (parent name : Str) : Except IErr descriptor :=
  match parseCore 32 (pathBase name) with
  | none => .error .invalidFileName
  | some (d, checksum, sz, flags) => .ok (newDescriptor parent name d checksum sz flags)

/-- Source `parseMessageInfo(name)` (older generation): same extraction, building a
`messageInfo` with no parent and no explicit name. -/
def parseMessageInfo (name : Str) : Except IErr descriptor :=
  match parseCore 32 name with
  | none => .error .invalidFileName
  | some (d, checksum, sz, flags) =>
    .ok { parent := [], name := [], date := d, md5sum := checksum, size := sz, flags := flags }

/-- Source `descriptor.Matches(name)`: re-parse the candidate name (size parsed with
`strconv.ParseInt(_, 10, 64)`) and compare date, checksum and size. -/
def dMatches (i : descriptor) (name : Str) : Bool :=
  match parseCore 64 (pathBase name) with
  | none => false
  | some (d, checksum, sz, _flags) =>
    i.date == d && i.md5sum == checksum && i.size == sz

/-- The two content-hash algorithms the backend deals in. -/
inductive HashType where
  | md5
  | sha1
deriving DecidableEq, Repr

/-- Source `Fs.Hashes()`: the advertised hash set (SHA1 and MD5). -/
def FsHashes : List HashType := [HashType.sha1, HashType.md5]

/-- Modelled from the spec: rclone's `fs/hash.MultiHasher.SumString` (the
generic multi-hash helper; its code is not under `src/`).  Design note 9.6
describes the helper as yielding the named algorithm's digest of the streamed
content ("requesting a second hash type silently yields the first
algorithm's value under the wrong key"), so the model returns the digest of
the algorithm it is asked for, with the concrete digest functions abstracted
as the parameter `hashFn`. -/
def MultiSumString (hashFn : HashType → List Nat → Str) (t : HashType)
    (content : List Nat) : Str :=
  hashFn t content

/-- Source `createHash` (newer generation): streams the content once, then for every
requested hash type stores `hasher.SumString(hash.MD5)` — the MD5 digest —
under that type's key. -/
def createHash (hashFn : HashType → List Nat → Str) (ts : List HashType)
    (content : List Nat) : List (HashType × Str) :=
  (if ts = [] then [HashType.md5] else ts).map
    (fun t => (t, MultiSumString hashFn HashType.md5 content))

/-- Association lookup in a computed hash map (`hashes[t]`). -/
def lookupHash (l : List (HashType × Str)) (t : HashType) : Option Str :=
  (l.find? (fun p => p.1 == t)).map (fun p => p.2)

/-- Errors of the filesystem facade.  `dirNotFound`, `objectNotFound`,
`cantDirMove` and `dirExists` are the distinct `fs.Error*` values;
`invalidName` / `invalidMessage` / `readingMessage` mirror the package
errors; the rest wrap protocol failures. -/
inductive FsErr where
  | connectFailed
  | notConnected
  | dirNotFound
  | objectNotFound
  | cantDirMove
  | dirExists
  | cantRemoveRoot
  | notEmpty
  | renameFailed
  | invalidName
  | invalidMessage
  | readingMessage
  | unsupported
deriving DecidableEq, Repr

/-- An error as surfaced to callers: either plain (retryable by the generic
machinery) or wrapped in `fserrors.NoRetryError`. -/
inductive OpErr where
  | plain (e : FsErr)
  | noRetry (e : FsErr)
deriving DecidableEq, Repr

/-- Package-error to facade-error renaming. -/
def errToFs (e : IErr) : FsErr :=
  match e with
  | .invalidFileName => .invalidName
  | .invalidMessage => .invalidMessage
  | .readingMessage => .readingMessage

/-- Source `Object.Hash` (newer generation): serve from the per-object cache, else
open the content and consult `createHash` for the requested type
(`hash.ErrUnsupported` when the map misses). -/
def ObjectHash (hashFn : HashType → List Nat → Str) (hashes : List (HashType × Str))
    (t : HashType) (openOk : Bool) (content : List Nat) : Except OpErr Str :=
  match lookupHash hashes t with
  | some v => .ok v
  | none =>
    if ¬ openOk then .error (.plain .readingMessage)
    else
      match lookupHash (createHash hashFn [t] content) t with
      | some v => .ok v
      | none => .error (.plain .unsupported)

/-- Source `Object.Hash` (older generation): serve from the cache, else open, stream
once into a hasher restricted to `t`, and return `hasher.SumString(t)`. -/
def ObjectHashGo (hashFn : HashType → List Nat → Str) (hashes : List (HashType × Str))
    (t : HashType) (openOk : Bool) (content : List Nat) : Except OpErr Str :=
  match lookupHash hashes t with
  | some v => .ok v
  | none =>
    if ¬ openOk then .error (.plain .readingMessage)
    else .ok (MultiSumString hashFn t content)

/-- A fetched IMAP message: internal date (unix seconds), reported
RFC822 size, flags and raw body bytes. -/
structure Msg where
  internalDate : Int
  size : Nat
  flags : List Flag
  body : List Nat
deriving Repr

/-- Per-operation connection state: login outcome, the server's hierarchy
delimiter, the cached mailbox list (server-side names), the mailbox message
stores, and the two external-library functions entering the model as
parameters — the MD5 digest and the `net/mail.ReadMessage` well-formedness
check — plus the server's date-window verdict for SEARCH (the ±1 month
`Since`/`Before` window is calendar arithmetic no claim depends on, so it is
abstracted to a predicate on the message date). -/
structure St where
  loginOk : Bool
  delim : Char
  mailboxes : List Str
  store : Str → List Msg
  dateOk : Int → Bool
  md5 : List Nat → Str
  isMsg : List Nat → Bool

/-- Source `mailclient.dirToMailbox`: trim slashes and translate the virtual `/`
separator to the server delimiter (modelled per character). -/
def dirToMailbox (delim : Char) (dir : Str) : Str :=
  (trimSlash dir).map (fun c => if c = '/' then delim else c)

/-- Source `mailclient.mailboxToDir`: the reverse translation. -/
def mailboxToDir (delim : Char) (mb : Str) : Str :=
  mb.map (fun c => if c = delim then '/' else c)

/-- Source `mailclient.HasMailbox`: exact match against the cached list (`false`
when not connected). -/
def HasMailbox (st : St) (dir : Str) : Bool :=
  st.loginOk && st.mailboxes.contains (dirToMailbox st.delim dir)

/-- Source `topDir`: first path segment and remainder, implemented in the source by
reversing, `path.Split`, and reversing back. -/
def topDir (input : Str) : Str × Str :=
  let p := goPathSplit input.reverse
  (trimSlash p.2.reverse, trimSlash p.1.reverse)

/-- Source `strings.HasPrefix`. -/
def hasPre (pre s : Str) : Bool :=
  s.take pre.length == pre

/-- The per-element candidate of the `getMatches` loop (newer generation):
at root the top segment of the trimmed element; under a non-empty root the
top segment after the `root/` prefix is stripped; empty when the element does
not live under `root`. -/
def getValue (root e : Str) : Str :=
  let e2 := trimSlash e
  if root = [] then (topDir e2).1
  else if hasPre (root ++ ['/']) e2 then (topDir (e2.drop (root.length + 1))).1
  else []

/-- The loop accumulator of `getMatches` (newer generation): append each
candidate when new and non-empty. -/
def getMatchesAux (root : Str) (acc : List Str) : List Str → List Str
  | [] => acc
  | e :: rest =>
    let value := getValue root e
    let acc2 := if value ≠ [] ∧ ¬ acc.contains value then acc ++ [value] else acc
    getMatchesAux root acc2 rest

/-- Source `getMatches(root, list)` (newer generation): immediate children of `root`
among the candidate paths. -/
def getMatches (root : Str) (list : List Str) : List Str :=
  getMatchesAux (trimSlash root) [] list

/-- Source `strings.Split(s, "/")`. -/
def splitSlash : Str → List Str
  | [] => [[]]
  | c :: rest =>
    if c = '/' then [] :: splitSlash rest
    else
      match splitSlash rest with
      | [] => [[c]]
      | h :: t => (c :: h) :: t

/-- Source `strings.TrimSpace` (ASCII fragment). -/
def goTrimSpace (s : Str) : Str :=
  (s.dropWhile isSpaceChar).rdropWhile isSpaceChar

/-- Source `matchesRoot(root, value)` (older generation): positional-segment
comparison returning whether `value` is an immediate child of `root`, and the
child's name. -/
def matchesRoot (root value : Str) : Bool × Str :=
  let a := splitSlash (trimSlash root)
  let b := splitSlash (trimSlash value)
  let count := a.length
  if goTrimSpace a.headI = [] ∧ b.length = 1 then (true, b.headI)
  else if b.length < a.length then (false, [])
  else if b.take count == a ∧ (b.drop count).length = 1 then (true, (b.drop count).headI)
  else (false, [])

/-- Source `mailclient.ListMailboxes` (newer generation): translate every cached
mailbox to a virtual path and filter with `getMatches`.  When not connected
the source returns `(nil, error)` and its one caller ignores the error, so
the model returns the empty list. -/
def ListMailboxes (st : St) (dir : Str) : List Str :=
  if st.loginOk then getMatches dir (st.mailboxes.map (mailboxToDir st.delim))
  else []

/-- Source `mailclient.ListMailboxes` (older generation): keep the names `matchesRoot`
accepts. -/
def ListMailboxesGo (st : St) (dir : Str) : List Str :=
  st.mailboxes.filterMap (fun m =>
    let r := matchesRoot dir (mailboxToDir st.delim m)
    if r.1 then some r.2 else none)

/-- IMAP search criteria as derived by the backend.  Only the size window is
modelled structurally; the `Since`/`Before` date window (±1 month of the
descriptor date) is represented by the server-side predicate `St.dateOk`. -/
structure SearchCriteria where
  larger : Nat
  smaller : Nat
deriving DecidableEq, Repr

/-- Source `searchCriteriaFromDescriptor`: `Larger = uint32(size - 50)`,
`Smaller = uint32(size + 50)`; the Go `int64 → uint32` conversion truncates
modulo `2^32`. -/
def searchCriteriaFromDescriptor (info : descriptor) : SearchCriteria :=
  { larger := ((info.size - 50) % ((2 : Int) ^ 32)).toNat
    smaller := ((info.size + 50) % ((2 : Int) ^ 32)).toNat }

/-- RFC 3501 `LARGER n` / `SMALLER n` semantics: strictly larger / strictly
smaller than `n` octets. -/
def sizeMatches (msgSize : Nat) (c : SearchCriteria) : Bool :=
  c.larger < msgSize && msgSize < c.smaller

/-- A message satisfies the derived criteria when its size is inside the
window and the server's date-window check passes. -/
def matchesCriteria (st : St) (m : Msg) (c : SearchCriteria) : Bool :=
  st.dateOk m.internalDate && sizeMatches m.size c

/-- Source `mailclient.Search`: the 1-based sequence numbers of the matching
messages. -/
def SearchModel (st : St) (msgs : List Msg) (c : SearchCriteria) : List Nat :=
  msgs.enum.filterMap (fun p => if matchesCriteria st p.2 c then some (p.1 + 1) else none)

/-- Source `messageToDescriptor` (newer generation): descriptor from a fetch result —
internal date, MD5 of the fetched body, the server-reported size, and the
server flags; the name is synthesized. -/
def messageToDescriptor (st : St) (parent : Str) (m : Msg) : descriptor :=
  newDescriptor parent [] m.internalDate (st.md5 m.body) (m.size : Int) m.flags

/-- A directory entry produced by `List`: a subdirectory or a message
object (with its session-local sequence number). -/
inductive Entry where
  | dir (name : Str)
  | obj (seqNum : Nat) (info : descriptor)
deriving DecidableEq, Repr

/-- Whether an entry is a directory entry. -/
def Entry.isDir : Entry → Bool
  | .dir _ => true
  | .obj _ _ => false

/-- Model of `path.Join` for slash-normalized inputs (also folding away a
`"."` element, the one `path.Clean` behaviour the backend relies on via
`path.Dir` of a bare file name). -/
def joinPath (a b : Str) : Str :=
  if a = [] then b
  else if b = [] ∨ b = ['.'] then a
  else a ++ '/' :: b

/-- Model of `path.Dir` for relative paths: the `path.Split` directory part
with trailing slashes removed, `"."` when empty. -/
def goPathDir (s : Str) : Str :=
  let d := (goPathSplit s).1.rdropWhile (· == '/')
  if d = [] then ['.'] else d

/-- Whether the message-name subpattern of `remoteRegex` matches at the head
of `s` (the subpattern is `messageNameRegEx` without the capture groups). -/
def fileMatchHere (s : Str) : Bool :=
  (matchAt s).isSome

/-- The substring the `file` group of `remoteRegex` captures from this start
position (the full deterministic match of the subpattern). -/
def fileCapture (s : Str) : Str :=
  match matchAt s with
  | none => []
  | some (g1, g2, g3, g4, g5) =>
    g1 ++ ('.' :: 'R' :: g2) ++ ('.' :: g3) ++ (',' :: 'S' :: '=' :: g4)
      ++ ('-' :: '2' :: ',' :: g5)

/-- Model of `remoteRegex`
`(?:(?P<parent>.*)\/)?(?P<file>\d+\.R[^\.]+\.[^,]+,S\=\d+-2,.*)|(?P<dir>.*)`
applied with `FindStringSubmatch`: the left alternative is preferred at the
leftmost start (position 0, where the right alternative always matches), the
optional greedy `parent` takes the longest newline-free prefix ending before
a `/` after which the file subpattern matches, and otherwise the file
subpattern alone is tried at position 0.  Returns
`(parent, file, dir)` with non-participating groups empty. -/
def resolveRemote (s : Str) : Str × Str × Str :=
  let n1 := (s.takeWhile (· != '\n')).length
  let cand := (List.range s.length).reverse.find? (fun j =>
    decide (j ≤ n1) &&
      (match s.drop j with
       | '/' :: rest => fileMatchHere rest
       | _ => false))
  match cand with
  | some j => (s.take j, fileCapture (s.drop (j + 1)), [])
  | none =>
    if fileMatchHere s then ([], fileCapture s, [])
    else ([], [], s.takeWhile (· != '\n'))

/-- Source `fetchEntries` (newer generation): the directory-listing algorithm —
resolve the path into `(parent, file)`, handle root and missing-mailbox
cases, derive search criteria for a file candidate, list child mailboxes,
then search/fetch and keep matching messages.  Post-fetch conversion errors
are impossible in the model (the body is always present), and the status
round trip is read off the mailbox store. -/
def fetchEntries (st : St) (root dir : Str) : Except OpErr (List Entry) :=
  if ¬ st.loginOk then .error (.plain .connectFailed)
  else
    let res := resolveRemote (joinPath root dir)
    let fileG := res.2.1
    let parent := if fileG = [] then res.2.2 else res.1
    if parent = [] then
      if fileG ≠ [] then .ok []
      else .ok ((ListMailboxes st parent).map (fun n => Entry.dir (joinPath dir n)))
    else if ¬ HasMailbox st parent then .error (.plain .dirNotFound)
    else
      let crit : Except IErr (Option SearchCriteria) :=
        if fileG = [] then .ok none
        else
          match nameToDescriptor parent fileG with
          | .error e => .error e
          | .ok info => .ok (some (searchCriteriaFromDescriptor info))
      match crit with
      | .error _ => .ok []
      | .ok critOpt =>
        let dirEntries :=
          if fileG = [] then (ListMailboxes st parent).map (fun n => Entry.dir (joinPath dir n))
          else []
        let msgs := st.store (dirToMailbox st.delim parent)
        if msgs.length = 0 then .ok dirEntries
        else
          match critOpt with
          | some c =>
            let ids := SearchModel st msgs c
            if ids = [] then .ok dirEntries
            else
              .ok (dirEntries ++ ids.filterMap (fun i =>
                match msgs.get? (i - 1) with
                | none => none
                | some m =>
                  let info := messageToDescriptor st parent m
                  if fileG = [] || dMatches info fileG then some (Entry.obj i info) else none))
          | none =>
            .ok (dirEntries ++ (List.range msgs.length).filterMap (fun i0 =>
              match msgs.get? i0 with
              | none => none
              | some m =>
                let info := messageToDescriptor st parent m
                if fileG = [] || dMatches info fileG then some (Entry.obj (i0 + 1) info) else none))

/-- Source `mailclient.DeleteMailbox`: refuses the root, fails with the distinct
not-found error when the select fails (mailbox absent), rejects a non-empty
mailbox, and otherwise deletes and refreshes the cached list. -/
def DeleteMailbox (st : St) (name : Str) : Except FsErr St :=
  if ¬ st.loginOk then .error .notConnected
  else if name = [] then .error .cantRemoveRoot
  else if ¬ st.mailboxes.contains (dirToMailbox st.delim name) then .error .dirNotFound
  else if (st.store (dirToMailbox st.delim name)).length ≠ 0 then .error .notEmpty
  else .ok { st with mailboxes := st.mailboxes.filter (fun m => ¬ (m == dirToMailbox st.delim name)) }

/-- Outcome of `Fs.Rmdir`: the result, whether a protocol delete was issued,
and the final connection/server state. -/
structure RmdirResult where
  res : Except OpErr Unit
  deleteIssued : Bool
  finalSt : St

/-- Source `Fs.Rmdir`: no-op success when the mailbox is already absent, otherwise
`DeleteMailbox` with failures wrapped non-retryable. -/
def Rmdir (st : St) (root dir : Str) : RmdirResult :=
  if ¬ st.loginOk then ⟨.error (.plain .connectFailed), false, st⟩
  else
    let p := joinPath root dir
    if ¬ HasMailbox st p then ⟨.ok (), false, st⟩
    else
      match DeleteMailbox st p with
      | .error e => ⟨.error (.noRetry e), true, st⟩
      | .ok st2 => ⟨.ok (), true, st2⟩

/-- The source filesystem handed to `DirMove`: either another instance of
this backend (with its root) or a different backend type (the failed type
assertion `src.(*Fs)`). -/
inductive SrcFs where
  | sameType (root : Str)
  | otherType

/-- Outcome of `Fs.DirMove`: result, whether a connection was attempted, and
whether a rename was attempted. -/
structure MoveResult where
  res : Except OpErr Unit
  connAttempted : Bool
  renameAttempted : Bool
  finalSt : St

/-- Source `mailclient.RenameMailbox`: server-side rename of a cached mailbox,
followed by a list refresh. -/
def RenameMailbox (st : St) (src dst : Str) : Except OpErr St :=
  if ¬ st.loginOk then .error (.plain .notConnected)
  else if ¬ st.mailboxes.contains (dirToMailbox st.delim src) then .error (.plain .renameFailed)
  else .ok { st with mailboxes := st.mailboxes.map (fun m =>
    if m == dirToMailbox st.delim src then dirToMailbox st.delim dst else m) }

/-- Source `Fs.DirMove`: reject a source of a different backend type before any
connection is made; otherwise connect, reject an existing destination, and
rename. -/
def DirMove (st : St) (dstRoot : Str) (src : SrcFs) (srcRemote dstRemote : Str) : MoveResult :=
  match src with
  | .otherType => ⟨.error (.plain .cantDirMove), false, false, st⟩
  | .sameType srcRoot =>
    let srcPath := joinPath srcRoot srcRemote
    let dstPath := joinPath dstRoot dstRemote
    if ¬ st.loginOk then ⟨.error (.plain .connectFailed), true, false, st⟩
    else if HasMailbox st dstPath then ⟨.error (.plain .dirExists), true, false, st⟩
    else
      match RenameMailbox st srcPath dstPath with
      | .error e => ⟨.error e, true, true, st⟩
      | .ok st2 => ⟨.ok (), true, true, st2⟩

/-- The content stream handed to `Put` (whether it supports seeking decides
if `readerToDescriptor` can hash and re-stream it). -/
structure Reader where
  content : List Nat
  seekable : Bool

/-- The `fs.ObjectInfo` argument of `Put`. -/
structure SrcObjInfo where
  remote : Str
  modTime : Int
  size : Int

/-- A source object found in the call context (`operations.SourceObjectKey`). -/
structure SrcObject where
  remote : Str
  modTime : Int
  size : Int
  content : List Nat
  openOk : Bool

/-- Source `objectToDescriptor` (newer generation): name parse first; only on
failure open the object, check well-formedness, and hash the content.  The
second component records whether the well-formedness check ran. -/
def objectToDescriptor (st : St) (parent : Str) (o : SrcObject) :
    Except IErr descriptor × Bool :=
  match nameToDescriptor parent o.remote with
  | .ok i => (.ok i, false)
  | .error _ =>
    if ¬ o.openOk then (.error .readingMessage, false)
    else if ¬ st.isMsg o.content then (.error .invalidMessage, true)
    else (.ok (newDescriptor parent o.remote o.modTime (st.md5 o.content) o.size []), true)

/-- Source `readerToDescriptor`: requires a seekable reader, checks mail
well-formedness, rewinds, hashes, rewinds again.  The second component
records whether the well-formedness check ran. -/
def readerToDescriptor (st : St) (parent name : Str) (date : Int) (r : Reader)
    (size : Int) : Except IErr descriptor × Bool :=
  if ¬ r.seekable then (.error .readingMessage, false)
  else if ¬ st.isMsg r.content then (.error .invalidMessage, true)
  else (.ok (newDescriptor parent name date (st.md5 r.content) size []), true)

/-- Source `mailclient.CreateMailbox` followed by the list refresh. -/
def CreateMailbox (st : St) (name : Str) : St :=
  { st with mailboxes := st.mailboxes ++ [dirToMailbox st.delim name] }

/-- Outcome of `Fs.Put`: result, whether an append was issued, whether the
mail well-formedness check ran on any content, and the final state. -/
structure PutResult where
  res : Except OpErr descriptor
  appended : Bool
  validated : Bool
  finalSt : St

/-- Source `Fs.Put` (newer generation): derive a descriptor (source object → name
parse → reader, in that priority), fail non-retryably if none works, then
connect, create the mailbox when missing, and append.  The post-append
re-resolution (`findObject`) is elided: the model returns the derived
descriptor. -/
def Put (st : St) (root : Str) (r : Reader) (src : SrcObjInfo)
    (srcObj : Option SrcObject) : PutResult :=
  let step1 : Except IErr descriptor × Bool :=
    match srcObj with
    | some o => objectToDescriptor st root o
    | none => (.error .readingMessage, false)
  let step2 : Except IErr descriptor × Bool :=
    match step1.1 with
    | .ok i => (.ok i, step1.2)
    | .error _ =>
      match nameToDescriptor root src.remote with
      | .ok i => (.ok i, step1.2)
      | .error _ =>
        let rd := readerToDescriptor st root src.remote src.modTime r src.size
        (rd.1, step1.2 || rd.2)
  match step2.1 with
  | .error e => ⟨.error (.noRetry (errToFs e)), false, step2.2, st⟩
  | .ok info =>
    if ¬ st.loginOk then ⟨.error (.plain .connectFailed), false, step2.2, st⟩
    else
      let mailbox := joinPath info.parent (goPathDir src.remote)
      let st2 := if ¬ HasMailbox st mailbox then CreateMailbox st mailbox else st
      ⟨.ok info, true, step2.2, st2⟩

/-- A one-mailbox connection state used to evaluate the theorems on concrete
inputs (mailbox `A`, empty). -/
def stA : St :=
  { loginOk := true
    delim := '/'
    mailboxes := [['A']]
    store := fun _ => []
    dateOk := fun _ => true
    md5 := fun _ => []
    isMsg := fun _ => true }

/-- Like `stA` but mailbox `A` holds one message. -/
def stA1 : St :=
  { stA with store := fun m => if m = ['A'] then [⟨0, 3, [], [1]⟩] else [] }

/-- Like `stA` but nothing is well-formed mail and the MD5 model returns a
fixed digest. -/
def stAraw : St :=
  { stA with isMsg := fun _ => false, md5 := fun _ => ['d'] }

/-- A connection state caching a single nested mailbox `A/B`. -/
def stNested : St :=
  { stA with mailboxes := ["A/B".toList] }

/-! ### Helper lemmas -/

theorem takeWhile_append_stop {α : Type} {p : α → Bool} {xs : List α}
    (h : ∀ x ∈ xs, p x = true) {y : α} (hy : p y = false) (ys : List α) :
    (xs ++ y :: ys).takeWhile p = xs := by
  induction xs with
  | nil => simp [List.takeWhile_cons, hy]
  | cons a l ih =>
    have ha : p a = true := h a (by simp)
    simp only [List.cons_append, List.takeWhile_cons, ha, if_true]
    rw [ih (fun x hx => h x (by simp [hx]))]

theorem dropWhile_append_stop {α : Type} {p : α → Bool} {xs : List α}
    (h : ∀ x ∈ xs, p x = true) {y : α} (hy : p y = false) (ys : List α) :
    (xs ++ y :: ys).dropWhile p = y :: ys := by
  induction xs with
  | nil => simp [List.dropWhile_cons, hy]
  | cons a l ih =>
    have ha : p a = true := h a (by simp)
    simp only [List.cons_append, List.dropWhile_cons, ha, if_true]
    exact ih (fun x hx => h x (by simp [hx]))

theorem digitChar_isDigit (d : Nat) : isDigitChar (digitChar d) = true := by
  unfold digitChar
  split <;> decide

theorem digitChar_toNat (d : Nat) (h : d < 10) : (digitChar d).toNat = 48 + d := by
  interval_cases d <;> decide

theorem natDecimalAux_all_digits :
    ∀ fuel n, n < fuel → ∀ c ∈ natDecimalAux fuel n, isDigitChar c = true := by
  intro fuel
  induction fuel with
  | zero => intro n h; omega
  | succ f ih =>
    intro n hn c hc
    rw [natDecimalAux] at hc
    by_cases hlt : n < 10
    · rw [if_pos hlt] at hc
      simp only [List.mem_singleton] at hc
      subst hc
      exact digitChar_isDigit n
    · rw [if_neg hlt] at hc
      simp only [List.mem_append, List.mem_singleton] at hc
      rcases hc with hc | rfl
      · exact ih (n / 10) (by omega) c hc
      · exact digitChar_isDigit _

theorem natDecimal_all_digits (n : Nat) : ∀ c ∈ natDecimal n, isDigitChar c = true :=
  natDecimalAux_all_digits (n + 1) n (by omega)

theorem natDecimalAux_ne_nil :
    ∀ fuel n, n < fuel → natDecimalAux fuel n ≠ [] := by
  intro fuel
  cases fuel with
  | zero => intro n h; omega
  | succ f =>
    intro n _hn
    rw [natDecimalAux]
    split <;> simp

theorem natDecimal_ne_nil (n : Nat) : natDecimal n ≠ [] :=
  natDecimalAux_ne_nil (n + 1) n (by omega)

theorem digitsVal_natDecimalAux :
    ∀ fuel n, n < fuel → digitsVal (natDecimalAux fuel n) = n := by
  intro fuel
  induction fuel with
  | zero => intro n h; omega
  | succ f ih =>
    intro n hn
    rw [natDecimalAux]
    by_cases hlt : n < 10
    · rw [if_pos hlt]
      simp [digitsVal, digitChar_toNat n hlt]
    · rw [if_neg hlt]
      simp only [digitsVal, List.foldl_append, List.foldl_cons, List.foldl_nil]
      have hm : n % 10 < 10 := Nat.mod_lt _ (by omega)
      rw [digitChar_toNat _ hm]
      have hrec : (natDecimalAux f (n / 10)).foldl (fun a c => 10 * a + (c.toNat - 48)) 0
          = n / 10 := ih (n / 10) (by omega)
      rw [hrec]
      omega

theorem digitsVal_natDecimal (n : Nat) : digitsVal (natDecimal n) = n :=
  digitsVal_natDecimalAux (n + 1) n (by omega)

theorem intDecimal_nonneg (i : Int) (h : 0 ≤ i) : intDecimal i = natDecimal i.toNat := by
  unfold intDecimal
  rw [if_neg (by omega)]
  congr 1
  omega

theorem isDigit_not_dot {c : Char} (h : isDigitChar c = true) : (c == '.') = false := by
  rcases Bool.eq_false_or_eq_true (c == '.') with ht | hf
  · exfalso
    have : c = '.' := beq_iff_eq.mp ht
    subst this
    simp [isDigitChar] at h
  · exact hf

theorem isDigit_not_dash {c : Char} (h : isDigitChar c = true) : (c == '-') = false := by
  rcases Bool.eq_false_or_eq_true (c == '-') with ht | hf
  · exfalso
    have : c = '-' := beq_iff_eq.mp ht
    subst this
    simp [isDigitChar] at h
  · exact hf

theorem isDigit_not_plus {c : Char} (h : isDigitChar c = true) : (c == '+') = false := by
  rcases Bool.eq_false_or_eq_true (c == '+') with ht | hf
  · exfalso
    have : c = '+' := beq_iff_eq.mp ht
    subst this
    simp [isDigitChar] at h
  · exact hf

theorem lowerHex_ne_dot {c : Char} (h : isLowerHexChar c = true) : (c != '.') = true := by
  rcases Bool.eq_false_or_eq_true (c == '.') with ht | hf
  · exfalso
    have : c = '.' := beq_iff_eq.mp ht
    subst this
    simp [isLowerHexChar] at h
  · simp [bne, hf]

theorem lowerHex_ne_comma {c : Char} (h : isLowerHexChar c = true) : (c != ',') = true := by
  rcases Bool.eq_false_or_eq_true (c == ',') with ht | hf
  · exfalso
    have : c = ',' := beq_iff_eq.mp ht
    subst this
    simp [isLowerHexChar] at h
  · simp [bne, hf]

theorem goParseIntRaw_digits (ds : Str) (hne : ds ≠ [])
    (hd : ∀ c ∈ ds, isDigitChar c = true) :
    goParseIntRaw ds = some ((digitsVal ds : Int)) := by
  obtain ⟨c, rest, rfl⟩ := List.exists_cons_of_ne_nil hne
  have hc : isDigitChar c = true := hd c (by simp)
  have hall : (c :: rest).all isDigitChar = true := by
    simp only [List.all_eq_true]
    exact hd
  simp [goParseIntRaw, isDigit_not_dash hc, isDigit_not_plus hc, hall]

theorem goParseInt_digits (bits : Nat) (ds : Str) (hne : ds ≠ [])
    (hd : ∀ c ∈ ds, isDigitChar c = true)
    (hr : (digitsVal ds : Int) ≤ (2 : Int) ^ (bits - 1) - 1) :
    goParseInt bits ds = some ((digitsVal ds : Int)) := by
  unfold goParseInt
  rw [goParseIntRaw_digits ds hne hd]
  rw [Option.some_bind]
  have hlow : -((2 : Int) ^ (bits - 1)) ≤ (digitsVal ds : Int) := by
    have h0 : (0 : Int) ≤ (digitsVal ds : Int) := Int.natCast_nonneg _
    have h2 : (0 : Int) ≤ (2 : Int) ^ (bits - 1) := by positivity
    linarith
  rw [if_pos ⟨hlow, hr⟩]

theorem goParseInt_widen {cs : Str} {v : Int} (h : goParseInt 32 cs = some v) :
    goParseInt 64 cs = some v := by
  unfold goParseInt at h ⊢
  rcases hr : goParseIntRaw cs with _ | w
  · rw [hr] at h
    simp at h
  · rw [hr] at h
    rw [Option.some_bind] at h ⊢
    by_cases hb : -((2 : Int) ^ (32 - 1)) ≤ w ∧ w ≤ (2 : Int) ^ (32 - 1) - 1
    · rw [if_pos hb] at h
      have hw : w = v := by simpa using h
      subst hw
      rw [if_pos]
      constructor
      · have h1 : ((2 : Int) ^ 31) ≤ 2 ^ 63 := by norm_num
        have h2 : -((2 : Int) ^ (32 - 1)) ≤ w := hb.1
        norm_num at h2 ⊢
        omega
      · have h1 : ((2 : Int) ^ 31) ≤ 2 ^ 63 := by norm_num
        have h2 : w ≤ (2 : Int) ^ (32 - 1) - 1 := hb.2
        norm_num at h2 ⊢
        omega
    · rw [if_neg hb] at h
      simp at h

/-! ### C8: the size window -/

/-- C8 (counterexample): the claim asserts the window is inclusive at ±50,
but under IMAP `LARGER`/`SMALLER` (strict comparisons, RFC 3501) a message of
size `target - 50` does not satisfy the criteria derived for target size
1000 (`Larger = 950` requires size strictly above 950). -/
theorem c8_boundary_not_inclusive :
    sizeMatches 950 (searchCriteriaFromDescriptor (newDescriptor [] [] 0 [] 1000 [])) = false := by
  decide

/-- C8 (amended): the derived window is exclusive at ±50: for any target size
in `[50, 2^32 - 50)`, messages of sizes `target ± 49` satisfy the criteria
while `target - 50`, `target + 50` and `target - 51` do not. -/
theorem c8_size_window_exclusive (target : Int) (h1 : 50 ≤ target)
    (h2 : target + 50 < 4294967296) :
    (sizeMatches (target - 49).toNat (searchCriteriaFromDescriptor (newDescriptor [] [] 0 [] target [])) = true)
    ∧ (sizeMatches (target + 49).toNat (searchCriteriaFromDescriptor (newDescriptor [] [] 0 [] target [])) = true)
    ∧ (sizeMatches (target - 50).toNat (searchCriteriaFromDescriptor (newDescriptor [] [] 0 [] target [])) = false)
    ∧ (sizeMatches (target + 50).toNat (searchCriteriaFromDescriptor (newDescriptor [] [] 0 [] target [])) = false)
    ∧ (sizeMatches (target - 51).toNat (searchCriteriaFromDescriptor (newDescriptor [] [] 0 [] target [])) = false) := by
  have h32 : ((2 : Int) ^ 32) = 4294967296 := by norm_num
  simp only [sizeMatches, searchCriteriaFromDescriptor, newDescriptor, h32]
  simp only [Bool.and_eq_true, decide_eq_true_eq, Bool.and_eq_false_iff,
    decide_eq_false_iff_not, not_lt]
  omega

/-- C8 (witness): the amended statement at target size 1000. -/
theorem c8_size_window_exclusive_witness :
    (sizeMatches 951 (searchCriteriaFromDescriptor (newDescriptor [] [] 0 [] 1000 [])) = true)
    ∧ (sizeMatches 1049 (searchCriteriaFromDescriptor (newDescriptor [] [] 0 [] 1000 [])) = true)
    ∧ (sizeMatches 950 (searchCriteriaFromDescriptor (newDescriptor [] [] 0 [] 1000 [])) = false)
    ∧ (sizeMatches 1050 (searchCriteriaFromDescriptor (newDescriptor [] [] 0 [] 1000 [])) = false)
    ∧ (sizeMatches 949 (searchCriteriaFromDescriptor (newDescriptor [] [] 0 [] 1000 [])) = false) :=
  c8_size_window_exclusive 1000 (by norm_num) (by norm_num)

/-! ### C9: sizes below 50 wrap the Larger bound -/

/-- C9: for a descriptor size below 50 the `uint32` conversion of the
negative `size - 50` wraps: `Larger = 2^32 - 50 + size`, no message of
realistic size (`≤ 2^32 - 51`) exceeds it, no message size at all satisfies
both bounds, and a search with these criteria returns no candidates. -/
theorem c9_small_size_window_wraps (s : Int) (h0 : 0 ≤ s) (h1 : s < 50) :
    ((searchCriteriaFromDescriptor (newDescriptor [] [] 0 [] s [])).larger = (4294967246 + s).toNat)
    ∧ (∀ m : Nat, sizeMatches m (searchCriteriaFromDescriptor (newDescriptor [] [] 0 [] s [])) = false)
    ∧ (∀ m : Nat, m ≤ 4294967245 →
        ¬ ((searchCriteriaFromDescriptor (newDescriptor [] [] 0 [] s [])).larger < m))
    ∧ (∀ (st : St) (msgs : List Msg),
        SearchModel st msgs (searchCriteriaFromDescriptor (newDescriptor [] [] 0 [] s [])) = []) := by
  have h32 : ((2 : Int) ^ 32) = 4294967296 := by norm_num
  have hLarger : ((searchCriteriaFromDescriptor (newDescriptor [] [] 0 [] s [])).larger = (4294967246 + s).toNat) := by
    simp only [searchCriteriaFromDescriptor, newDescriptor, h32]
    omega
  have hNone : ∀ m : Nat, sizeMatches m (searchCriteriaFromDescriptor (newDescriptor [] [] 0 [] s [])) = false := by
    intro m
    simp only [sizeMatches, searchCriteriaFromDescriptor, newDescriptor, h32]
    simp only [Bool.and_eq_false_iff, decide_eq_false_iff_not, not_lt]
    omega
  refine ⟨hLarger, hNone, ?_, ?_⟩
  · intro m hm
    rw [hLarger]
    omega
  · intro st msgs
    simp only [SearchModel]
    rw [List.filterMap_eq_nil_iff]
    intro p _
    have hmc : matchesCriteria st p.2 (searchCriteriaFromDescriptor (newDescriptor [] [] 0 [] s [])) = false := by
      simp [matchesCriteria, hNone]
    simp [hmc]

theorem isDigit_not_slash {c : Char} (h : isDigitChar c = true) : (c == '/') = false := by
  rcases Bool.eq_false_or_eq_true (c == '/') with ht | hf
  · exfalso
    have : c = '/' := beq_iff_eq.mp ht
    subst this
    simp [isDigitChar] at h
  · exact hf

theorem lowerHex_not_slash {c : Char} (h : isLowerHexChar c = true) : (c == '/') = false := by
  rcases Bool.eq_false_or_eq_true (c == '/') with ht | hf
  · exfalso
    have : c = '/' := beq_iff_eq.mp ht
    subst this
    simp [isLowerHexChar] at h
  · exact hf

theorem maildirNameCore_normal (d s : Int) (hd : 0 ≤ d) (hs : 0 ≤ s) (c : Str) :
    maildirNameCore d c s =
      natDecimal d.toNat ++ '.' :: 'R' ::
        (c ++ '.' :: (imapHost ++ ',' :: 'S' :: '=' ::
          (natDecimal s.toNat ++ ['-', '2', ',']))) := by
  have hdc : intDecimal d = natDecimal d.toNat := by
    rw [intDecimal_nonneg d hd]
  have hsc : intDecimal s = natDecimal s.toNat := by
    rw [intDecimal_nonneg s hs]
  simp [maildirNameCore, hdc, hsc, List.append_assoc]

theorem matchAt_canonical (dn sn : Nat) (c : Str) (hc1 : c ≠ [])
    (hc2 : ∀ ch ∈ c, isLowerHexChar ch = true) :
    matchAt (natDecimal dn ++ '.' :: 'R' ::
        (c ++ '.' :: (imapHost ++ ',' :: 'S' :: '=' ::
          (natDecimal sn ++ ['-', '2', ','])))) =
      some (natDecimal dn, c, imapHost, natDecimal sn, []) := by
  have hd1 : ∀ x ∈ natDecimal dn, isDigitChar x = true := natDecimal_all_digits dn
  have hdot : isDigitChar '.' = false := by decide
  have hc2a : ∀ x ∈ c, (x != '.') = true := fun x hx => lowerHex_ne_dot (hc2 x hx)
  have hdd : (('.' : Char) != '.') = false := by decide
  have hh : ∀ x ∈ imapHost, (x != ',') = true := by decide
  have hcc : ((',' : Char) != ',') = false := by decide
  have hs1 : ∀ x ∈ natDecimal sn, isDigitChar x = true := natDecimal_all_digits sn
  have hdash : isDigitChar '-' = false := by decide
  unfold matchAt
  rw [takeWhile_append_stop hd1 hdot, dropWhile_append_stop hd1 hdot]
  rw [if_neg (natDecimal_ne_nil dn)]
  simp only [if_pos (And.intro rfl rfl)]
  rw [takeWhile_append_stop hc2a hdd, dropWhile_append_stop hc2a hdd]
  rw [if_neg hc1]
  simp only [if_pos rfl]
  rw [takeWhile_append_stop hh hcc, dropWhile_append_stop hh hcc]
  rw [if_neg (by decide : imapHost ≠ [])]
  simp only [if_pos (And.intro rfl (And.intro rfl rfl))]
  rw [show (natDecimal sn ++ ['-', '2', ',']) = natDecimal sn ++ '-' :: ['2', ','] from rfl]
  rw [takeWhile_append_stop hs1 hdash, dropWhile_append_stop hs1 hdash]
  rw [if_neg (natDecimal_ne_nil sn)]
  simp

theorem findMatch_canonical (dn sn : Nat) (c : Str) (hc1 : c ≠ [])
    (hc2 : ∀ ch ∈ c, isLowerHexChar ch = true) :
    findMatch (natDecimal dn ++ '.' :: 'R' ::
        (c ++ '.' :: (imapHost ++ ',' :: 'S' :: '=' ::
          (natDecimal sn ++ ['-', '2', ','])))) =
      some (natDecimal dn, c, imapHost, natDecimal sn, []) := by
  obtain ⟨x, xs, hx⟩ := List.exists_cons_of_ne_nil (natDecimal_ne_nil dn)
  have hm := matchAt_canonical dn sn c hc1 hc2
  rw [hx] at hm ⊢
  rw [List.cons_append] at hm ⊢
  rw [findMatch]
  rw [hm]

theorem pathBase_of_no_slash (s : Str) (hne : s ≠ [])
    (h : ∀ ch ∈ s, (ch == '/') = false) : pathBase s = s := by
  unfold pathBase
  rw [if_neg hne]
  have hrd : s.rdropWhile (· == '/') = s := by
    rw [List.rdropWhile_eq_self_iff]
    intro hl
    simp only [h _ (List.getLast_mem hl), Bool.false_eq_true, not_false_eq_true]
  rw [hrd, if_neg hne]
  have htw : s.reverse.takeWhile (· != '/') = s.reverse := by
    rw [List.takeWhile_eq_self_iff]
    intro x hx
    have hx2 : x ∈ s := by simpa using hx
    simp [bne, h x hx2]
  rw [htw, List.reverse_reverse]

theorem canonical_no_slash (dn sn : Nat) (c : Str)
    (hc2 : ∀ ch ∈ c, isLowerHexChar ch = true) :
    ∀ ch ∈ (natDecimal dn ++ '.' :: 'R' ::
        (c ++ '.' :: (imapHost ++ ',' :: 'S' :: '=' ::
          (natDecimal sn ++ ['-', '2', ','])))), (ch == '/') = false := by
  have hA : ∀ x ∈ natDecimal dn, (x == '/') = false :=
    fun x hx => isDigit_not_slash (natDecimal_all_digits dn x hx)
  have hC : ∀ x ∈ c, (x == '/') = false := fun x hx => lowerHex_not_slash (hc2 x hx)
  have hH : ∀ x ∈ imapHost, (x == '/') = false := by decide
  have hS : ∀ x ∈ natDecimal sn, (x == '/') = false :=
    fun x hx => isDigit_not_slash (natDecimal_all_digits sn x hx)
  have hT : ∀ x ∈ (['-', '2', ','] : Str), (x == '/') = false := by decide
  intro ch hch
  rcases List.mem_append.mp hch with h1 | h2
  · exact hA ch h1
  · rcases List.mem_cons.mp h2 with rfl | h3
    · decide
    · rcases List.mem_cons.mp h3 with rfl | h4
      · decide
      · rcases List.mem_append.mp h4 with h5 | h6
        · exact hC ch h5
        · rcases List.mem_cons.mp h6 with rfl | h7
          · decide
          · rcases List.mem_append.mp h7 with h8 | h9
            · exact hH ch h8
            · rcases List.mem_cons.mp h9 with rfl | h10
              · decide
              · rcases List.mem_cons.mp h10 with rfl | h11
                · decide
                · rcases List.mem_cons.mp h11 with rfl | h12
                  · decide
                  · rcases List.mem_append.mp h12 with h13 | h14
                    · exact hS ch h13
                    · exact hT ch h14

theorem goParseInt_natDecimal (bits : Nat) (n : Nat)
    (hr : (n : Int) ≤ (2 : Int) ^ (bits - 1) - 1) :
    goParseInt bits (natDecimal n) = some ((n : Int)) := by
  have h := goParseInt_digits bits (natDecimal n) (natDecimal_ne_nil n)
    (natDecimal_all_digits n) (by rw [digitsVal_natDecimal]; exact hr)
  rwa [digitsVal_natDecimal] at h

theorem parseCore_canonical (bits : Nat) (dn sn : Nat) (c : Str) (hc1 : c ≠ [])
    (hc2 : ∀ ch ∈ c, isLowerHexChar ch = true)
    (hdb : (dn : Int) ≤ (2 : Int) ^ 63 - 1)
    (hsb : (sn : Int) ≤ (2 : Int) ^ (bits - 1) - 1) :
    parseCore bits (natDecimal dn ++ '.' :: 'R' ::
        (c ++ '.' :: (imapHost ++ ',' :: 'S' :: '=' ::
          (natDecimal sn ++ ['-', '2', ','])))) =
      some ((dn : Int), c, (sn : Int), []) := by
  unfold parseCore
  rw [findMatch_canonical dn sn c hc1 hc2]
  dsimp only
  rw [goParseInt_natDecimal 64 dn hdb]
  dsimp only
  rw [goParseInt_natDecimal bits sn hsb]
  dsimp only
  simp

/-! ### C1: canonical-name round trip -/

/-- C1 (counterexample): the claim quantifies over all non-negative `int64`
sizes, but the canonical name synthesized for size `2^31` does not parse
back: `nameToDescriptor` reads the size with `strconv.ParseInt(_, 10, 32)`,
which range-errors at `2^31`, so the round trip yields `InvalidNameError`
instead of an equal descriptor. -/
theorem c1_roundtrip_fails_at_2pow31 :
    nameToDescriptor []
        (MaildirName (newDescriptor [] [] 0 ['a', 'b'] 2147483648 []) false) =
      .error .invalidFileName := by
  decide

/-- C1 (amended): for every valid triple whose date is a non-negative 64-bit
unix timestamp, whose checksum is a non-empty lowercase-hex string, and whose
size lies in `[0, 2^31)`, parsing the canonical name synthesized with no
flags yields a descriptor equal to the original under the three-field
equality that ignores flags. -/
theorem c1_name_roundtrip (parent : Str) (date size : Int) (checksum : Str)
    (hd0 : 0 ≤ date) (hdb : date ≤ (2 : Int) ^ 63 - 1)
    (hs0 : 0 ≤ size) (hsb : size ≤ (2 : Int) ^ 31 - 1)
    (hc1 : checksum ≠ []) (hc2 : ∀ ch ∈ checksum, isLowerHexChar ch = true) :
    ∃ out,
      nameToDescriptor parent
          (MaildirName (newDescriptor parent [] date checksum size []) false) = .ok out
      ∧ dEqual out (newDescriptor parent [] date checksum size []) = true := by
  have hMN : MaildirName (newDescriptor parent [] date checksum size []) false
      = maildirNameCore date checksum size := by
    simp [MaildirName, newDescriptor]
  have hnorm := maildirNameCore_normal date size hd0 hs0 checksum
  have hnoslash := canonical_no_slash date.toNat size.toNat checksum hc2
  have hnenil : (natDecimal date.toNat ++ '.' :: 'R' ::
      (checksum ++ '.' :: (imapHost ++ ',' :: 'S' :: '=' ::
        (natDecimal size.toNat ++ ['-', '2', ','])))) ≠ [] := by
    simp [natDecimal_ne_nil]
  have hdb2 : ((date.toNat : Int)) ≤ (2 : Int) ^ 63 - 1 := by
    rw [Int.toNat_of_nonneg hd0]
    exact hdb
  have hsb2 : ((size.toNat : Int)) ≤ (2 : Int) ^ (32 - 1) - 1 := by
    rw [Int.toNat_of_nonneg hs0]
    norm_num
    omega
  have hparse := parseCore_canonical 32 date.toNat size.toNat checksum hc1 hc2 hdb2 hsb2
  refine ⟨newDescriptor parent (maildirNameCore date checksum size) date checksum size [], ?_, ?_⟩
  · unfold nameToDescriptor
    rw [hMN]
    have hpb : pathBase (maildirNameCore date checksum size)
        = maildirNameCore date checksum size := by
      rw [hnorm]
      exact pathBase_of_no_slash _ hnenil hnoslash
    rw [hpb, hnorm, hparse]
    dsimp only
    simp only [Int.toNat_of_nonneg hd0, Int.toNat_of_nonneg hs0]
  · simp [dEqual, newDescriptor]

/-- C1 (witness): the amended round trip at a concrete triple. -/
theorem c1_name_roundtrip_witness :
    ∃ out,
      nameToDescriptor []
          (MaildirName (newDescriptor [] [] 1704067200 ['a', 'b'] 5 []) false) = .ok out
      ∧ dEqual out (newDescriptor [] [] 1704067200 ['a', 'b'] 5 []) = true :=
  c1_name_roundtrip [] 1704067200 5 ['a', 'b'] (by norm_num) (by norm_num)
    (by norm_num) (by norm_num) (by decide) (by decide)

/-! ### C10: Matches versus parseName -/

/-- C10 (counterexample): the grammar-shaped name with size field `2^31` is
matched by a suitable descriptor (`Matches` parses the size with 64-bit
`ParseInt`) while both `nameToDescriptor` and `parseMessageInfo` reject it
(32-bit `ParseInt`), refuting the claimed equivalence of the two accept
sets. -/
theorem c10_matches_accepts_parse_rejects :
    (dMatches { parent := [], name := [], date := 0, md5sum := ['a'],
                size := 2147483648, flags := [] }
        ("0.Ra.b,S=2147483648-2,".toList) = true)
    ∧ (nameToDescriptor [] ("0.Ra.b,S=2147483648-2,".toList) = .error .invalidFileName)
    ∧ (parseMessageInfo ("0.Ra.b,S=2147483648-2,".toList) = .error .invalidFileName) := by
  refine ⟨by decide, by decide, by decide⟩

/-- C10 (amended): `Matches` accepts a superset of what `parseName` accepts —
every name accepted by `nameToDescriptor` is matched by its parsed
descriptor; the inclusion is strict because the size field is parsed with
64-bit width in `Matches` but 32-bit width in `parseName`. -/
theorem c10_parse_accepts_subset_of_matches (parent name : Str) (out : descriptor)
    (h : nameToDescriptor parent name = .ok out) : dMatches out name = true := by
  unfold nameToDescriptor parseCore at h
  rcases hfm : findMatch (pathBase name) with _ | ⟨g1, g2, g3, g4, g5⟩
  · rw [hfm] at h
    simp at h
  · rw [hfm] at h
    dsimp only at h
    rcases hd : goParseInt 64 g1 with _ | d
    · rw [hd] at h
      simp at h
    · rw [hd] at h
      dsimp only at h
      rcases hsz : goParseInt 32 g4 with _ | sz
      · rw [hsz] at h
        simp at h
      · rw [hsz] at h
        dsimp only at h
        simp only [Except.ok.injEq] at h
        subst h
        unfold dMatches parseCore
        rw [hfm]
        dsimp only
        rw [hd]
        dsimp only
        rw [goParseInt_widen hsz]
        dsimp only
        simp [newDescriptor]

/-- C10 (witness): the amended inclusion at a concrete parsed name. -/
theorem c10_parse_accepts_subset_of_matches_witness :
    dMatches (newDescriptor [] ("1.Ra.b,S=2-2,".toList) 1 ['a'] 2 [])
      ("1.Ra.b,S=2-2,".toList) = true := by
  have h : nameToDescriptor [] ("1.Ra.b,S=2-2,".toList)
      = .ok (newDescriptor [] ("1.Ra.b,S=2-2,".toList) 1 ['a'] 2 []) := rfl
  exact c10_parse_accepts_subset_of_matches [] _ _ h

/-! ### C2: the hash algorithm actually computed -/

/-- C2 (code evaluation): SHA1 is advertised by `Fs.Hashes()`, yet for an
object with an empty hash cache the newer generation's `Object.Hash(SHA1)`
returns the MD5 digest (its `createHash` stores `SumString(hash.MD5)` under
every requested key), never the SHA1 digest; the older generation's
`Object.Hash` returns the digest of the requested algorithm. -/
theorem c2_hash_not_computed_with_requested_type
    (hashFn : HashType → List Nat → Str) (content : List Nat) :
    (HashType.sha1 ∈ FsHashes)
    ∧ (ObjectHash hashFn [] HashType.sha1 true content = .ok (hashFn HashType.md5 content))
    ∧ (hashFn HashType.md5 content ≠ hashFn HashType.sha1 content →
        ObjectHash hashFn [] HashType.sha1 true content ≠ .ok (hashFn HashType.sha1 content))
    ∧ (ObjectHashGo hashFn [] HashType.sha1 true content = .ok (hashFn HashType.sha1 content)) := by
  have hmain : ObjectHash hashFn [] HashType.sha1 true content = .ok (hashFn HashType.md5 content) := by
    simp [ObjectHash, lookupHash, createHash, MultiSumString, List.find?]
  refine ⟨by simp [FsHashes], hmain, ?_, ?_⟩
  · intro hne hcontra
    rw [hmain] at hcontra
    exact hne (by injection hcontra)
  · simp [ObjectHashGo, lookupHash, MultiSumString, List.find?]

/-- C2 (witness): the evaluation at a concrete hash function separating the
two digests, on one-byte content. -/
theorem c2_hash_not_computed_with_requested_type_witness :
    (HashType.sha1 ∈ FsHashes)
    ∧ (ObjectHash (fun t _ => if t = HashType.md5 then ['m'] else ['s']) []
        HashType.sha1 true [1] = .ok ['m'])
    ∧ (ObjectHash (fun t _ => if t = HashType.md5 then ['m'] else ['s']) []
        HashType.sha1 true [1] ≠ .ok ['s'])
    ∧ (ObjectHashGo (fun t _ => if t = HashType.md5 then ['m'] else ['s']) []
        HashType.sha1 true [1] = .ok ['s']) := by
  have h := c2_hash_not_computed_with_requested_type
    (fun t _ => if t = HashType.md5 then ['m'] else ['s']) [1]
  exact ⟨h.1, h.2.1, h.2.2.1 (by decide), h.2.2.2⟩

/-! ### C6: Rmdir idempotence and delete emptiness -/

/-- C6: `Rmdir` on an absent mailbox succeeds without issuing a delete; on an
existing mailbox with at least one message it fails with the distinct
non-retryable "not empty" error and leaves the state unchanged; on an
existing empty mailbox it succeeds and the mailbox is gone from the
refreshed list. -/
theorem c6_rmdir_idempotent_delete_enforces_empty (st : St) (root dir : Str) :
    (st.loginOk = true → HasMailbox st (joinPath root dir) = false →
      (Rmdir st root dir).res = .ok () ∧ (Rmdir st root dir).deleteIssued = false)
    ∧ (HasMailbox st (joinPath root dir) = true → joinPath root dir ≠ [] →
        (st.store (dirToMailbox st.delim (joinPath root dir))).length ≥ 1 →
        (Rmdir st root dir).res = .error (.noRetry .notEmpty)
        ∧ (Rmdir st root dir).finalSt = st)
    ∧ (HasMailbox st (joinPath root dir) = true → joinPath root dir ≠ [] →
        (st.store (dirToMailbox st.delim (joinPath root dir))).length = 0 →
        (Rmdir st root dir).res = .ok ()
        ∧ (Rmdir st root dir).finalSt.mailboxes.contains
            (dirToMailbox st.delim (joinPath root dir)) = false) := by
  refine ⟨?_, ?_, ?_⟩
  · intro hlog habs
    simp [Rmdir, hlog, habs]
  · intro hhas hne hlen
    have hlog : st.loginOk = true := by
      have := hhas
      simp only [HasMailbox, Bool.and_eq_true] at this
      exact this.1
    have hmem : dirToMailbox st.delim (joinPath root dir) ∈ st.mailboxes := by
      simp only [HasMailbox, Bool.and_eq_true] at hhas
      simpa using hhas.2
    have hlen2 : (st.store (dirToMailbox st.delim (joinPath root dir))).length ≠ 0 := by omega
    simp [Rmdir, DeleteMailbox, hlog, hhas, hne, hmem, hlen2]
  · intro hhas hne hlen
    have hlog : st.loginOk = true := by
      have := hhas
      simp only [HasMailbox, Bool.and_eq_true] at this
      exact this.1
    have hmem : dirToMailbox st.delim (joinPath root dir) ∈ st.mailboxes := by
      simp only [HasMailbox, Bool.and_eq_true] at hhas
      simpa using hhas.2
    constructor
    · simp [Rmdir, DeleteMailbox, hlog, hhas, hne, hmem, hlen]
    · simp only [Rmdir, DeleteMailbox, hlog, hhas, hne, hmem, hlen]
      simp [hhas, hne, hmem, hlen, List.contains_eq_any_beq, List.any_filter]

/-- C6 (witness): the three cases at concrete states — an absent mailbox, a
mailbox with one message, and an empty mailbox. -/
theorem c6_rmdir_idempotent_delete_enforces_empty_witness :
    ((Rmdir stA [] ['B']).res = .ok ())
    ∧ ((Rmdir stA1 [] ['A']).res = .error (.noRetry .notEmpty))
    ∧ ((Rmdir stA [] ['A']).res = .ok ()) := by
  refine ⟨?_, ?_, ?_⟩
  · exact ((c6_rmdir_idempotent_delete_enforces_empty stA [] ['B']).1 rfl (by decide)).1
  · exact ((c6_rmdir_idempotent_delete_enforces_empty stA1 [] ['A']).2.1 (by decide) (by decide)
      (by decide)).1
  · exact ((c6_rmdir_idempotent_delete_enforces_empty stA [] ['A']).2.2 (by decide) (by decide)
      (by decide)).1

theorem mem_getMatchesAux (root : Str) (l : List Str) :
    ∀ acc r, r ∈ getMatchesAux root acc l ↔
      r ∈ acc ∨ (r ≠ [] ∧ ∃ e ∈ l, getValue root e = r) := by
  induction l with
  | nil =>
    intro acc r
    simp [getMatchesAux]
  | cons e rest ih =>
    intro acc r
    rw [getMatchesAux]
    by_cases hcond : getValue root e ≠ [] ∧ ¬ acc.contains (getValue root e)
    · rw [if_pos hcond, ih]
      constructor
      · rintro (hmem | ⟨hne, e2, he2, hv⟩)
        · rcases List.mem_append.mp hmem with h1 | h2
          · exact Or.inl h1
          · simp only [List.mem_singleton] at h2
            subst h2
            exact Or.inr ⟨hcond.1, e, by simp, rfl⟩
        · exact Or.inr ⟨hne, e2, by simp [he2], hv⟩
      · rintro (hmem | ⟨hne, e2, he2, hv⟩)
        · exact Or.inl (List.mem_append.mpr (Or.inl hmem))
        · rcases List.mem_cons.mp he2 with rfl | h3
          · exact Or.inl (List.mem_append.mpr (Or.inr (by simp [hv])))
          · exact Or.inr ⟨hne, e2, h3, hv⟩
    · rw [if_neg hcond, ih]
      constructor
      · rintro (hmem | ⟨hne, e2, he2, hv⟩)
        · exact Or.inl hmem
        · exact Or.inr ⟨hne, e2, by simp [he2], hv⟩
      · rintro (hmem | ⟨hne, e2, he2, hv⟩)
        · exact Or.inl hmem
        · rcases List.mem_cons.mp he2 with rfl | h3
          · left
            rw [hv] at hcond
            rcases not_and_or.mp hcond with hc1 | hc2
            · exact absurd hne (by simpa using hc1)
            · have : r ∈ acc := by
                have hcon := not_not.mp hc2
                simpa using hcon
              exact this
          · exact Or.inr ⟨hne, e2, h3, hv⟩

theorem topDir_fst (x : Str) : (topDir x).1 = trimSlash (x.takeWhile (· != '/')) := by
  simp [topDir, goPathSplit, List.reverse_reverse]

theorem trimSlash_sublist (s : Str) : (trimSlash s).Sublist s := by
  unfold trimSlash
  exact (( List.rdropWhile_prefix _ _).sublist).trans (List.dropWhile_sublist _)

theorem topDir_fst_no_slash (x : Str) : ∀ ch ∈ (topDir x).1, (ch == '/') = false := by
  intro ch hch
  rw [topDir_fst] at hch
  have h2 : ch ∈ x.takeWhile (· != '/') := (trimSlash_sublist _).mem hch
  have h3 := List.mem_takeWhile_imp h2
  simpa [bne] using h3

theorem getValue_root (e : Str) : getValue [] e = (topDir (trimSlash e)).1 := by
  simp [getValue]

theorem splitSlash_ne_nil (s : Str) : splitSlash s ≠ [] := by
  induction s with
  | nil => simp [splitSlash]
  | cons c rest _ih =>
    rw [splitSlash]
    by_cases hc : c = '/'
    · simp [hc]
    · rw [if_neg hc]
      rcases hsp : splitSlash rest with _ | ⟨h, t⟩ <;> simp

theorem splitSlash_no_slash (s : Str) (h : ∀ ch ∈ s, (ch == '/') = false) :
    splitSlash s = [s] := by
  induction s with
  | nil => rfl
  | cons c rest ih =>
    rw [splitSlash]
    have hc : ¬ c = '/' := by
      intro hceq
      subst hceq
      simpa using h '/' (by simp)
    rw [if_neg hc]
    rw [ih (fun ch hch => h ch (by simp [hch]))]

theorem splitSlash_head (s : Str) : (splitSlash s).headI = s.takeWhile (· != '/') := by
  induction s with
  | nil => rfl
  | cons c rest ih =>
    rw [splitSlash]
    by_cases hc : c = '/'
    · subst hc
      simp [List.takeWhile_cons]
    · rw [if_neg hc]
      rcases hsp : splitSlash rest with _ | ⟨h, t⟩
      · exact absurd hsp (splitSlash_ne_nil rest)
      · dsimp only [List.headI_cons]
        rw [List.takeWhile_cons]
        have hb : (c != '/') = true := by simp [bne, hc]
        rw [hb]
        have hih := ih
        rw [hsp] at hih
        simp only [List.headI_cons] at hih
        simp [hih]

theorem splitSlash_singleton {s x : Str} (h : splitSlash s = [x]) :
    x = s ∧ ∀ ch ∈ s, (ch == '/') = false := by
  induction s generalizing x with
  | nil =>
    simp only [splitSlash] at h
    injection h with h1 _h2
    subst h1
    exact ⟨rfl, by simp⟩
  | cons c rest ih =>
    rw [splitSlash] at h
    by_cases hc : c = '/'
    · rw [if_pos hc] at h
      injection h with _h1 h2
      exact absurd h2 (splitSlash_ne_nil rest)
    · rw [if_neg hc] at h
      rcases hsp : splitSlash rest with _ | ⟨hh, t⟩
      · exact absurd hsp (splitSlash_ne_nil rest)
      · rw [hsp] at h
        dsimp only at h
        injection h with h1 h2
        subst h2
        obtain ⟨hh_eq, hnos⟩ := ih (x := hh) hsp
        subst hh_eq
        refine ⟨by rw [← h1], ?_⟩
        intro ch hch
        rcases List.mem_cons.mp hch with rfl | hmem
        · rw [beq_eq_false_iff_ne]
          exact hc
        · exact hnos ch hmem

theorem trimSlash_head_ne_slash {v : Str} {x : Char} {t : Str}
    (h : trimSlash v = x :: t) : (x == '/') = false := by
  unfold trimSlash at h
  have hpre := List.rdropWhile_prefix (· == '/') (v.dropWhile (· == '/'))
  rw [h] at hpre
  obtain ⟨suf, hsuf⟩ := hpre
  have hd : v.dropWhile (· == '/') = x :: (t ++ suf) := by
    rw [← hsuf]
    simp
  have hw : v.dropWhile (· == '/') ≠ [] := by
    rw [hd]
    simp
  have hhead := List.head_dropWhile_not (· == '/') v hw
  have hx : (v.dropWhile (· == '/')).head hw = x := by
    simp [hd]
  rwa [hx] at hhead

theorem matchesRoot_root {v res : Str} (h : matchesRoot [] v = (true, res)) :
    res = trimSlash v ∧ ∀ ch ∈ res, (ch == '/') = false := by
  unfold matchesRoot at h
  rw [show trimSlash ([] : Str) = [] from rfl] at h
  rw [show splitSlash ([] : Str) = [[]] from rfl] at h
  dsimp only [List.headI_cons, List.length_cons, List.length_nil] at h
  rw [show goTrimSpace ([] : Str) = [] from rfl] at h
  by_cases hb : (splitSlash (trimSlash v)).length = 1
  · rw [if_pos ⟨rfl, hb⟩] at h
    obtain ⟨x, hx⟩ := List.length_eq_one.mp hb
    obtain ⟨hxs, hnos⟩ := splitSlash_singleton hx
    subst hxs
    rw [hx] at h
    simp only [List.headI_cons, Prod.mk.injEq] at h
    refine ⟨h.2.symm, ?_⟩
    rw [← h.2]
    exact hnos
  · rw [if_neg (by simp [hb])] at h
    have hlen : 1 ≤ (splitSlash (trimSlash v)).length :=
      List.length_pos.mpr (splitSlash_ne_nil _)
    rw [if_neg (by omega)] at h
    by_cases h3 : (splitSlash (trimSlash v)).take 1 == [[]]
        ∧ ((splitSlash (trimSlash v)).drop 1).length = 1
    · exfalso
      obtain ⟨x, t, hx⟩ := List.exists_cons_of_ne_nil (splitSlash_ne_nil (trimSlash v))
      have htake := h3.1
      rw [hx] at htake
      rw [show ((x :: t).take 1 : List Str) = [x] from rfl] at htake
      have hxe : x = [] := by
        have := beq_iff_eq.mp htake
        simpa using this
      subst hxe
      have hhead := splitSlash_head (trimSlash v)
      rw [hx] at hhead
      simp only [List.headI_cons] at hhead
      rcases hts : trimSlash v with _ | ⟨c0, t0⟩
      · rw [hts] at hb
        exact hb rfl
      · rw [hts] at hhead
        rw [List.takeWhile_cons] at hhead
        have hc0 := trimSlash_head_ne_slash hts
        have hc0b : (c0 != '/') = true := by simp [bne, hc0]
        rw [hc0b] at hhead
        simp at hhead
    · rw [if_neg h3] at h
      simp at h

theorem fetchEntries_root_dirs (st : St) (hlog : st.loginOk = true) (es : List Entry)
    (h : fetchEntries st [] [] = .ok es) : ∀ e ∈ es, e.isDir = true := by
  unfold fetchEntries at h
  rw [if_neg (by simp [hlog])] at h
  rw [show joinPath [] [] = [] from rfl] at h
  rw [show resolveRemote [] = ([], [], []) from rfl] at h
  simp at h
  subst h
  intro e he
  rcases List.mem_map.mp he with ⟨n, _, rfl⟩
  rfl

/-! ### C3: root listing -/

/-- C3: at the root, listing is exactly the distinct top segments of the
cached mailboxes — a name is returned only when some cached mailbox
contributes it, no returned name contains a separator (nested mailboxes are
never flattened), the older generation's `matchesRoot` likewise only accepts
separator-free children at root, and the root directory listing produces
only directory entries, never message objects. -/
theorem c3_root_lists_top_level_only (st : St) (hlog : st.loginOk = true) :
    (∀ r, r ∈ ListMailboxes st [] ↔
      (r ≠ [] ∧ ∃ mb ∈ st.mailboxes,
        (topDir (trimSlash (mailboxToDir st.delim mb))).1 = r))
    ∧ (∀ r ∈ ListMailboxes st [], ∀ ch ∈ r, (ch == '/') = false)
    ∧ (∀ v res, matchesRoot [] v = (true, res) →
        res = trimSlash v ∧ ∀ ch ∈ res, (ch == '/') = false)
    ∧ (∀ es, fetchEntries st [] [] = .ok es → ∀ e ∈ es, e.isDir = true) := by
  have hchar : ∀ r, r ∈ ListMailboxes st [] ↔
      (r ≠ [] ∧ ∃ mb ∈ st.mailboxes,
        (topDir (trimSlash (mailboxToDir st.delim mb))).1 = r) := by
    intro r
    have hLM : ListMailboxes st []
        = getMatchesAux [] [] (st.mailboxes.map (mailboxToDir st.delim)) := by
      rw [ListMailboxes, if_pos hlog, getMatches]
      rw [show trimSlash ([] : Str) = [] from rfl]
    rw [hLM, mem_getMatchesAux]
    simp only [List.not_mem_nil, false_or, List.mem_map, getValue_root]
    constructor
    · rintro ⟨hne, e, ⟨mb, hmb, rfl⟩, hv⟩
      exact ⟨hne, mb, hmb, hv⟩
    · rintro ⟨hne, mb, hmb, hv⟩
      exact ⟨hne, mailboxToDir st.delim mb, ⟨mb, hmb, rfl⟩, hv⟩
  refine ⟨hchar, ?_, ?_, ?_⟩
  · intro r hr
    obtain ⟨_, mb, _, hv⟩ := (hchar r).mp hr
    rw [← hv]
    exact topDir_fst_no_slash _
  · intro v res h
    exact matchesRoot_root h
  · exact fetchEntries_root_dirs st hlog

/-- C3 (witness): the characterization evaluated at a state caching a
top-level mailbox and a nested one. -/
theorem c3_root_lists_top_level_only_witness :
    (['A'] ∈ ListMailboxes stNested [])
    ∧ (("A/B".toList) ∉ ListMailboxes stNested [])
    ∧ (matchesRoot [] ("A/B".toList) = (false, []))
    ∧ (∀ es, fetchEntries stNested [] [] = .ok es → ∀ e ∈ es, e.isDir = true) := by
  have h := c3_root_lists_top_level_only stNested rfl
  refine ⟨?_, ?_, by decide, h.2.2.2⟩
  · rw [h.1]
    refine ⟨by decide, "A/B".toList, by decide, by decide⟩
  · intro hcontra
    obtain ⟨_, mb, hmb, hv⟩ := (h.1 _).mp hcontra
    have : mb = "A/B".toList := by
      rcases List.mem_singleton.mp hmb with rfl
      rfl
    subst this
    revert hv
    decide

/-! ### C4: listing a missing mailbox -/

/-- C4: when the path resolves to a non-empty parent mailbox that is not in
the connection's cached mailbox list, `List` returns the distinct
`fs.ErrorDirNotFound` — not an empty result and not a generic error. -/
theorem c4_missing_mailbox_dir_not_found (st : St) (root dir pg fg dg : Str)
    (hlog : st.loginOk = true)
    (hres : resolveRemote (joinPath root dir) = (pg, fg, dg))
    (hp : (if fg = [] then dg else pg) ≠ [])
    (habs : HasMailbox st (if fg = [] then dg else pg) = false) :
    fetchEntries st root dir = .error (.plain .dirNotFound) := by
  by_cases hf : fg = []
  · subst hf
    have hp2 : dg ≠ [] := by simpa using hp
    have habs2 : HasMailbox st dg = false := by simpa using habs
    simp [fetchEntries, hlog, hres, hp2, habs2]
  · have hp2 : pg ≠ [] := by simpa [hf] using hp
    have habs2 : HasMailbox st pg = false := by simpa [hf] using habs
    simp [fetchEntries, hlog, hres, hp2, habs2, hf]

/-- C4 (witness): listing directory `B` against a state that only caches
mailbox `A`. -/
theorem c4_missing_mailbox_dir_not_found_witness :
    fetchEntries stA [] ['B'] = .error (.plain .dirNotFound) :=
  c4_missing_mailbox_dir_not_found stA [] ['B'] [] [] ['B'] rfl (by decide)
    (by decide) (by decide)

/-! ### C5: Put validation -/

/-- C5 (counterexample): a `Put` whose `src.Remote()` parses as a canonical
name appends the content without the mail well-formedness check ever
running, even though the content is not a well-formed message — refuting
"for every call to Put, the content is validated ... before any upload". -/
theorem c5_valid_name_skips_validation :
    ((Put stAraw [] ⟨[9], true⟩ ⟨"5.Ra.b,S=1-2,".toList, 0, 1⟩ none).appended = true)
    ∧ ((Put stAraw [] ⟨[9], true⟩ ⟨"5.Ra.b,S=1-2,".toList, 0, 1⟩ none).validated = false)
    ∧ (stAraw.isMsg [9] = false) := by
  decide

/-- C5 (amended): only when the descriptor falls back to the raw content
(no source object and a name that does not parse) is the content validated;
in that path content failing the check is rejected with the non-retryable
invalid-message error and no append occurs. -/
theorem c5_fallback_validation_rejects_before_append (st : St) (root : Str)
    (r : Reader) (src : SrcObjInfo) (e : IErr)
    (hname : nameToDescriptor root src.remote = .error e)
    (hseek : r.seekable = true)
    (hbad : st.isMsg r.content = false) :
    ((Put st root r src none).res = .error (.noRetry .invalidMessage))
    ∧ ((Put st root r src none).appended = false)
    ∧ ((Put st root r src none).validated = true) := by
  refine ⟨?_, ?_, ?_⟩ <;>
    simp [Put, readerToDescriptor, hname, hseek, hbad, errToFs]

/-- C5 (witness): the amended statement at a non-name remote with
non-message content. -/
theorem c5_fallback_validation_rejects_before_append_witness :
    ((Put stAraw [] ⟨[9], true⟩ ⟨['x'], 0, 1⟩ none).res = .error (.noRetry .invalidMessage))
    ∧ ((Put stAraw [] ⟨[9], true⟩ ⟨['x'], 0, 1⟩ none).appended = false)
    ∧ ((Put stAraw [] ⟨[9], true⟩ ⟨['x'], 0, 1⟩ none).validated = true) :=
  c5_fallback_validation_rejects_before_append stAraw [] ⟨[9], true⟩ ⟨['x'], 0, 1⟩
    .invalidFileName rfl rfl (by decide)

/-! ### C7: DirMove guards -/

/-- C7: `DirMove` from a source filesystem of a different backend type fails
with the distinct `fs.ErrorCantDirMove` before any connection is attempted;
with a same-type source and an existing destination mailbox it fails with the
distinct `fs.ErrorDirExists` and no rename is attempted. -/
theorem c7_dirmove_type_and_exists_guards (st : St) (dstRoot srcRemote dstRemote : Str) :
    (DirMove st dstRoot SrcFs.otherType srcRemote dstRemote =
      ⟨.error (.plain .cantDirMove), false, false, st⟩)
    ∧ (∀ srcRoot, HasMailbox st (joinPath dstRoot dstRemote) = true →
        (DirMove st dstRoot (SrcFs.sameType srcRoot) srcRemote dstRemote).res
            = .error (.plain .dirExists)
        ∧ (DirMove st dstRoot (SrcFs.sameType srcRoot) srcRemote dstRemote).renameAttempted
            = false
        ∧ (DirMove st dstRoot (SrcFs.sameType srcRoot) srcRemote dstRemote).finalSt = st) := by
  constructor
  · rfl
  · intro srcRoot hdst
    have hlog : st.loginOk = true := by
      simp only [HasMailbox, Bool.and_eq_true] at hdst
      exact hdst.1
    simp [DirMove, hlog, hdst]

/-- C7 (witness): both guards at a concrete state whose destination
mailbox exists. -/
theorem c7_dirmove_type_and_exists_guards_witness :
    ((DirMove stA [] SrcFs.otherType ['S'] ['A']).res = .error (.plain .cantDirMove))
    ∧ ((DirMove stA [] (SrcFs.sameType []) ['S'] ['A']).res = .error (.plain .dirExists)) := by
  constructor
  · have h := (c7_dirmove_type_and_exists_guards stA [] ['S'] ['A']).1
    rw [h]
  · exact ((c7_dirmove_type_and_exists_guards stA [] ['S'] ['A']).2 [] (by decide)).1

/-- C9 (witness): the statement at descriptor size 5. -/
theorem c9_small_size_window_wraps_witness :
    ((searchCriteriaFromDescriptor (newDescriptor [] [] 0 [] 5 [])).larger = 4294967251)
    ∧ (sizeMatches 4294967251 (searchCriteriaFromDescriptor (newDescriptor [] [] 0 [] 5 [])) = false)
    ∧ ¬ ((searchCriteriaFromDescriptor (newDescriptor [] [] 0 [] 5 [])).larger < 100) := by
  obtain ⟨h1, h2, h3, _h4⟩ := c9_small_size_window_wraps 5 (by norm_num) (by norm_num)
  exact ⟨by rw [h1]; rfl, h2 4294967251, h3 100 (by norm_num)⟩

end Imap
